import Mathlib

/-!
Verification of the chess-tool-calling interaction loop of the
"Automatic Tool Calling" notebook, and the `split_text` chunking helper of
the contract-analysis notebook.

The chess rules engine (`python-chess`) is an external collaborator: we
model it as an abstract `Engine` interface carrying exactly the contract
the notebook relies on (`push_san` succeeds precisely on the moves listed
by `legal_moves`, and a successful push flips the side to move).  The
arbiter functions (`is_ai_turn`, `make_ai_move`, `make_user_move`), the
termination detector `get_end_state`, and the interactive session loop are
translated from the notebook source.  Python strings are modelled as
`String`/`List Char`; a Python `ValueError` raised by a move-submission
function is modelled as an `Except.error` carrying the error kind, which
by construction commits no state change.
-/

/-- Error kinds raised by the move-submission functions of the notebook:
`illegalMove` models the `ValueError` propagated from `board.push_san`
("Illegal move"), `notAITurn` models `ValueError("Not AI's turn.")` and
`notPlayerTurn` models `ValueError("Not player's turn.")`. -/
inductive MoveError where
  | illegalMove
  | notAITurn
  | notPlayerTurn
deriving DecidableEq, Repr

/-- Abstract interface of the external chess rules engine (`python-chess`),
with the contract the notebook relies on: `pushSan` succeeds exactly on the
strings listed by `legalMovesSan`, and a successful push flips the side to
move.  `turn p = true` means White is to move (as `board.turn` in
python-chess). -/
structure Engine where
  Pos : Type
  turn : Pos → Bool
  legalMovesSan : Pos → List String
  legalCapturesSan : Pos → List String
  givesCheckSan : Pos → String → Bool
  pushSan : Pos → String → Option Pos
  isCheckmate : Pos → Bool
  isStalemate : Pos → Bool
  isInsufficientMaterial : Pos → Bool
  isSeventyfiveMoves : Pos → Bool
  isFivefoldRepetition : Pos → Bool
  pushSan_isSome : ∀ p m, (pushSan p m).isSome = true ↔ m ∈ legalMovesSan p
  turn_pushSan : ∀ p m q, pushSan p m = some q → turn q = !turn p

/-- The mutable state of the notebook: the global `board` (position plus
move stack, the latter kept here as the list of SAN strings pushed so far)
and the global `ai_pos` (0 when the AI plays White, 1 when it plays Black). -/
structure GameState (E : Engine) where
  pos : E.Pos
  history : List String
  ai_pos : Nat

section Arbiter

variable {E : Engine}

/-- `legal_moves()`: all legal moves of the current position in SAN. -/
def legal_moves (g : GameState E) : List String :=
  E.legalMovesSan g.pos

/-- `possible_captures()`: all legal captures of the current position. -/
def possible_captures (g : GameState E) : List String :=
  E.legalCapturesSan g.pos

/-- `possible_checks()`: the legal moves that give check. -/
def possible_checks (g : GameState E) : List String :=
  (E.legalMovesSan g.pos).filter (E.givesCheckSan g.pos)

/-- `get_move_history()`: the moves played so far in SAN. -/
def get_move_history (g : GameState E) : List String :=
  g.history

/-- `is_ai_turn()`: `bool(board.turn) == (ai_pos == 0)`. -/
def is_ai_turn (g : GameState E) : Bool :=
  E.turn g.pos == decide (g.ai_pos = 0)

/-- `make_ai_move(move)`: if it is the AI's turn, push the move (an invalid
move raises `ValueError`, modelled as `.error .illegalMove`); otherwise
raise `ValueError("Not AI's turn.")`. -/
def make_ai_move (g : GameState E) (move : String) : Except MoveError (GameState E) :=
  if is_ai_turn g then
    match E.pushSan g.pos move with
    | some p => .ok { g with pos := p, history := g.history ++ [move] }
    | none => .error .illegalMove
  else
    .error .notAITurn

/-- `make_user_move(move)`: if it is not the AI's turn, push the move;
otherwise raise `ValueError("Not player's turn.")`. -/
def make_user_move (g : GameState E) (move : String) : Except MoveError (GameState E) :=
  if !is_ai_turn g then
    match E.pushSan g.pos move with
    | some p => .ok { g with pos := p, history := g.history ++ [move] }
    | none => .error .illegalMove
  else
    .error .notPlayerTurn

/-- `get_end_state()`: the game-over message of the current position, or
`none` when the game continues. -/
def get_end_state (g : GameState E) : Option String :=
  if E.isCheckmate g.pos then some "Checkmate!"
  else if E.isStalemate g.pos then some "Stalemate!"
  else if E.isInsufficientMaterial g.pos then some "Draw by insufficient material!"
  else if E.isSeventyfiveMoves g.pos then some "Draw by 75-move rule!"
  else if E.isFivefoldRepetition g.pos then some "Draw by fivefold repetition!"
  else none

end Arbiter

/-- A concrete instance of the engine interface, used to evaluate the
session model on explicit inputs: positions are the list of moves played,
two moves "a" and "b" are legal until two plies have been played, and the
game is declared checkmate after two plies. -/
def testLegal (p : List String) : List String :=
  if p.length < 2 then ["a", "b"] else []

/-- The concrete test engine (see `testLegal`). -/
def TestEngine : Engine where
  Pos := List String
  turn p := decide (p.length % 2 = 0)
  legalMovesSan := testLegal
  legalCapturesSan _ := []
  givesCheckSan _ _ := false
  pushSan p m := if m ∈ testLegal p then some (p ++ [m]) else none
  isCheckmate p := decide (2 ≤ p.length)
  isStalemate _ := false
  isInsufficientMaterial _ := false
  isSeventyfiveMoves _ := false
  isFivefoldRepetition _ := false
  pushSan_isSome := by
    intro p m
    by_cases h : m ∈ testLegal p <;> simp [h]
  turn_pushSan := by
    intro p m q h
    by_cases hm : m ∈ testLegal p
    · simp only [hm, if_pos, if_true] at h
      cases h
      rcases Nat.mod_two_eq_zero_or_one p.length with h2 | h2 <;>
        simp [Nat.add_mod, h2]
    · simp [hm] at h

section ArbiterLemmas

variable {E : Engine}

/-- A successful `make_ai_move` requires the AI to hold the turn. -/
lemma is_ai_turn_of_make_ai_move_ok {g g' : GameState E} {m : String}
    (h : make_ai_move g m = .ok g') : is_ai_turn g = true := by
  by_cases ht : is_ai_turn g
  · exact ht
  · simp [make_ai_move, ht] at h

/-- A successful `make_user_move` requires the user to hold the turn. -/
lemma is_ai_turn_of_make_user_move_ok {g g' : GameState E} {m : String}
    (h : make_user_move g m = .ok g') : is_ai_turn g = false := by
  by_cases ht : is_ai_turn g
  · simp [make_user_move, ht] at h
  · simp [ht]

/-- A successful `make_ai_move` pushes the move: the resulting position
comes from `pushSan` and the move is appended to the history. -/
lemma make_ai_move_ok_iff {g g' : GameState E} {m : String} :
    make_ai_move g m = .ok g' ↔
      is_ai_turn g = true ∧ ∃ p, E.pushSan g.pos m = some p ∧
        g' = { g with pos := p, history := g.history ++ [m] } := by
  constructor
  · intro h
    have ht := is_ai_turn_of_make_ai_move_ok h
    refine ⟨ht, ?_⟩
    rw [make_ai_move, if_pos ht] at h
    cases hp : E.pushSan g.pos m with
    | none => rw [hp] at h; cases h
    | some p =>
      rw [hp] at h
      cases h
      exact ⟨p, rfl, rfl⟩
  · rintro ⟨ht, p, hp, rfl⟩
    rw [make_ai_move, if_pos ht, hp]

/-- A successful `make_user_move` pushes the move. -/
lemma make_user_move_ok_iff {g g' : GameState E} {m : String} :
    make_user_move g m = .ok g' ↔
      is_ai_turn g = false ∧ ∃ p, E.pushSan g.pos m = some p ∧
        g' = { g with pos := p, history := g.history ++ [m] } := by
  constructor
  · intro h
    have ht := is_ai_turn_of_make_user_move_ok h
    refine ⟨ht, ?_⟩
    rw [make_user_move, ht] at h
    simp only [Bool.not_false, if_true] at h
    cases hp : E.pushSan g.pos m with
    | none => rw [hp] at h; cases h
    | some p =>
      rw [hp] at h
      cases h
      exact ⟨p, rfl, rfl⟩
  · rintro ⟨ht, p, hp, rfl⟩
    rw [make_user_move, ht]
    simp only [Bool.not_false, if_true, hp]

/-- A successful push by either side flips `is_ai_turn`. -/
lemma is_ai_turn_flip {g g' : GameState E} {m : String}
    (h : make_ai_move g m = .ok g' ∨ make_user_move g m = .ok g') :
    is_ai_turn g' = !is_ai_turn g := by
  have hmain : ∃ p, E.pushSan g.pos m = some p ∧
      g' = { g with pos := p, history := g.history ++ [m] } := by
    rcases h with h | h
    · exact (make_ai_move_ok_iff.mp h).2
    · exact (make_user_move_ok_iff.mp h).2
  rcases hmain with ⟨p, hp, rfl⟩
  have hturn := E.turn_pushSan g.pos m p hp
  simp only [is_ai_turn, hturn]
  cases E.turn g.pos <;> cases h2 : decide (g.ai_pos = 0) <;> simp

end ArbiterLemmas

section ClaimC1C2C6

variable {E : Engine}

/-- Claim C1 (counterexample): the claim says that submitting a move
outside `legal_moves()` always fails with ILLEGAL_MOVE; but when the
submitting side does not hold the turn, the turn guard fires first and the
call fails with WRONG_TURN instead.  Concretely, at the initial position of
the test engine with `ai_pos = 1` (AI plays Black, so it is not the AI's
turn), the illegal move "zz" submitted through `make_ai_move` raises
"Not AI's turn.", not "Illegal move". -/
theorem C1_counterexample :
    "zz" ∉ legal_moves (⟨[], [], 1⟩ : GameState TestEngine) ∧
    make_ai_move (⟨[], [], 1⟩ : GameState TestEngine) "zz" = .error .notAITurn ∧
    MoveError.notAITurn ≠ MoveError.illegalMove := by
  refine ⟨by decide, rfl, by decide⟩

/-- Claim C1 (amended): for every GameState and every move string `m` not
in the current `legal_moves()` set, the submission fails — with
ILLEGAL_MOVE when the submitting side holds the turn, and with WRONG_TURN
otherwise — and the GameState is unchanged (an `Except.error` result
commits no state change: the board position and history are only rebuilt
in the `.ok` branch). -/
theorem C1_illegal_move_rejected (g : GameState E) (m : String)
    (hm : m ∉ legal_moves g) :
    (is_ai_turn g = true → make_ai_move g m = .error .illegalMove) ∧
    (is_ai_turn g = false → make_user_move g m = .error .illegalMove) := by
  have hp : E.pushSan g.pos m = none := by
    cases h : E.pushSan g.pos m with
    | none => rfl
    | some p =>
      exfalso
      exact hm ((E.pushSan_isSome g.pos m).mp (by rw [h]; rfl))
  constructor
  · intro ht
    rw [make_ai_move, if_pos ht, hp]
  · intro ht
    rw [make_user_move, ht]
    simp only [Bool.not_false, if_true, hp]

/-- Witness for C1 (amended): at the initial test position with the AI to
move, the illegal move "zz" fails with ILLEGAL_MOVE. -/
theorem C1_witness :
    "zz" ∉ legal_moves (⟨[], [], 0⟩ : GameState TestEngine) ∧
    make_ai_move (⟨[], [], 0⟩ : GameState TestEngine) "zz" = .error .illegalMove :=
  ⟨by decide, (C1_illegal_move_rejected (⟨[], [], 0⟩ : GameState TestEngine) "zz"
    (by decide)).1 rfl⟩

/-- Claim C2 (confirmed): for every GameState and every move string, if the
submitting side does not hold the turn, the submission fails with the
WRONG_TURN error of that side ("Not AI's turn." / "Not player's turn.")
and the GameState is unchanged (an `Except.error` commits no state
change), even when the submitted move is legal: the turn guard is checked
before the move is ever pushed. -/
theorem C2_wrong_turn_rejected (g : GameState E) (m : String) :
    (is_ai_turn g = false → make_ai_move g m = .error .notAITurn) ∧
    (is_ai_turn g = true → make_user_move g m = .error .notPlayerTurn) := by
  constructor
  · intro ht
    rw [make_ai_move, if_neg (by simp [ht])]
  · intro ht
    rw [make_user_move, ht]
    rfl

/-- Witness for C2: at the initial test position with `ai_pos = 1` the move
"a" is legal, yet `make_ai_move` fails with "Not AI's turn.". -/
theorem C2_witness :
    is_ai_turn (⟨[], [], 1⟩ : GameState TestEngine) = false ∧
    "a" ∈ legal_moves (⟨[], [], 1⟩ : GameState TestEngine) ∧
    make_ai_move (⟨[], [], 1⟩ : GameState TestEngine) "a" = .error .notAITurn :=
  ⟨rfl, by decide, (C2_wrong_turn_rejected (⟨[], [], 1⟩ : GameState TestEngine) "a").1 rfl⟩

/-- Claim C6 (confirmed): after any successful move submission by either
side, `is_ai_turn` flips to the negation of its value before the move
(stated, as in the claim, under the hypothesis that the recomputed
termination reason is NONE; the flip is a consequence of the engine
contract that a successful push flips the side to move). -/
theorem C6_turn_alternation (g g' : GameState E) (m : String)
    (h : make_ai_move g m = .ok g' ∨ make_user_move g m = .ok g')
    (_hend : get_end_state g' = none) :
    is_ai_turn g' = !is_ai_turn g :=
  is_ai_turn_flip h

/-- Witness for C6: pushing the legal move "a" at the initial test position
with the AI to move succeeds, the game is not over, and the turn flips. -/
theorem C6_witness :
    make_ai_move (⟨[], [], 0⟩ : GameState TestEngine) "a" = .ok ⟨["a"], ["a"], 0⟩ ∧
    get_end_state (⟨["a"], ["a"], 0⟩ : GameState TestEngine) = none ∧
    is_ai_turn (⟨["a"], ["a"], 0⟩ : GameState TestEngine) =
      !is_ai_turn (⟨[], [], 0⟩ : GameState TestEngine) :=
  ⟨rfl, rfl,
    C6_turn_alternation (⟨[], [], 0⟩ : GameState TestEngine) ⟨["a"], ["a"], 0⟩ "a"
      (Or.inl rfl) rfl⟩

end ClaimC1C2C6

/-- The named tools of the notebook.  The constructors cover the five
functions actually passed to `model.act` plus `is_ai_turn`, which exists in
the notebook but is not part of the tool list. -/
inductive Tool where
  | get_move_history
  | legal_moves
  | possible_captures
  | possible_checks
  | make_ai_move
  | is_ai_turn
deriving DecidableEq, Repr

/-- The tool list passed to `model.act` on every AI turn of the session
loop: `[get_move_history, legal_moves, possible_captures, possible_checks,
make_ai_move]`. -/
def agentTools : List Tool :=
  [Tool.get_move_history, Tool.legal_moves, Tool.possible_captures,
   Tool.possible_checks, Tool.make_ai_move]

/-- Observable events of one session: `prompted` for each `input()` call,
`quitEntered` when the prompt consumed a (case-insensitive) "quit",
`helped ms` when "help" displayed the list `ms`, `moveCall m` for each
invocation of a move-submission function (`make_ai_move` or
`make_user_move`), `rejected` when a failed user move printed its error,
`agentInvoked` for each `model.act` call, and `checked r` each time the
loop consulted `get_end_state()` (with its result). -/
inductive Event where
  | prompted
  | quitEntered
  | helped (moves : List String)
  | moveCall (m : String)
  | rejected
  | agentInvoked
  | checked (r : Option String)
deriving DecidableEq, Repr

section SessionModel

variable {E : Engine}

/-- Run `make_ai_move` the way the agent harness does: a raised
`ValueError` is reported to the model and the board is left unchanged. -/
def tryMove (g : GameState E) (m : String) : GameState E :=
  match make_ai_move g m with
  | .ok g' => g'
  | .error _ => g

/-- Dispatch one tool call by the agent.  The four query tools are
side-effect free; `make_ai_move` attempts a move (errors are dropped) and
is the only call observed as a `moveCall` event.  `is_ai_turn` is included
for completeness but is never reachable through `agentTools`. -/
def callTool (g : GameState E) (t : Tool) (arg : String) : List Event × GameState E :=
  match t with
  | Tool.make_ai_move => ([Event.moveCall arg], tryMove g arg)
  | _ => ([], g)

/-- One `model.act` invocation: the agent performs a finite sequence of
tool calls chosen from the tool list it was given (`agentTools`); calls to
tools outside the list cannot be dispatched.  The round cap of the source
(`max_prediction_rounds = 5`) bounds the length of this sequence; the model
is parametric in the script, so every bounded behaviour is covered. -/
def run_agent (g : GameState E) : List (Tool × String) → List Event × GameState E
  | [] => ([], g)
  | (t, a) :: rest =>
    if t ∈ agentTools then
      ((callTool g t a).1 ++ (run_agent (callTool g t a).2 rest).1,
       (run_agent (callTool g t a).2 rest).2)
    else
      run_agent g rest

/-- The state after the AI half of one loop iteration: the agent runs,
then the failsafe — `if is_ai_turn(): make_ai_move(legal_moves()[0])` — in
case the agent did not make a move. -/
def ai_half_state (g : GameState E) (script : List (Tool × String)) : GameState E :=
  if is_ai_turn (run_agent g script).2 then
    tryMove (run_agent g script).2 ((legal_moves (run_agent g script).2).headD "")
  else
    (run_agent g script).2

/-- The events of the AI half of one loop iteration. -/
def ai_half_events (g : GameState E) (script : List (Tool × String)) : List Event :=
  if is_ai_turn (run_agent g script).2 then
    Event.agentInvoked :: (run_agent g script).1 ++
      [Event.moveCall ((legal_moves (run_agent g script).2).headD "")]
  else
    Event.agentInvoked :: (run_agent g script).1

/-- The AI half of one loop iteration: invoke the agent, then the failsafe
in case the agent did not make a move. -/
def ai_half (g : GameState E) (script : List (Tool × String)) : List Event × GameState E :=
  (ai_half_events g script, ai_half_state g script)

/-- Python's `str.lower()` applied to the user's command string, modelled
characterwise (the recognised commands are ASCII). -/
def pyLower (s : String) : String :=
  ⟨s.data.map Char.toLower⟩

/-- Result of the inner user-input loop: the user quit, or a move was
successfully applied. -/
inductive HumanStep (E : Engine) where
  | quit
  | moved (g : GameState E)

/-- The inner user-input loop: prompt repeatedly; "quit" (case-insensitive)
ends the game, "help" prints `legal_moves()` and re-prompts, any other text
is submitted through `make_user_move`, re-prompting on error.  Returns the
emitted events, the unconsumed inputs, and the step outcome (`none` when
the input stream is exhausted, i.e. the loop blocks on `input()`). -/
def human_loop (g : GameState E) : List String → List Event × List String × Option (HumanStep E)
  | [] => ([], [], none)
  | i :: rest =>
    if pyLower i = "quit" then
      ([Event.prompted, Event.quitEntered], rest, some HumanStep.quit)
    else if pyLower i = "help" then
      (Event.prompted :: Event.helped (legal_moves g) :: (human_loop g rest).1,
       (human_loop g rest).2.1, (human_loop g rest).2.2)
    else
      match make_user_move g i with
      | .ok g' => ([Event.prompted, Event.moveCall i], rest, some (HumanStep.moved g'))
      | .error _ =>
        (Event.prompted :: Event.moveCall i :: Event.rejected :: (human_loop g rest).1,
         (human_loop g rest).2.1, (human_loop g rest).2.2)

/-- How a modelled session run ends: the user quit, a game-over message was
printed (`break` after `get_end_state()` returned it), the run blocked on
an exhausted input stream, or the iteration budget ran out. -/
inductive Outcome where
  | userQuit
  | gameOver (msg : String)
  | blocked
  | fuelOut
deriving DecidableEq, Repr

/-- The session loop (`while True:` of the notebook), indexed by an
iteration budget.  When `ai_pos = 0` each iteration is: AI half,
termination check, user inner loop, quit check, termination check; when
`ai_pos = 1` the user half comes first, mirroring the two branches of the
source.  `scripts` supplies the agent's tool calls of the successive
`model.act` invocations, `inputs` the user's successive text entries.
Returns the full event trace and the outcome. -/
def session (fuel : Nat) (g : GameState E) (inputs : List String)
    (scripts : List (List (Tool × String))) : List Event × Outcome :=
  match fuel with
  | 0 => ([], Outcome.fuelOut)
  | Nat.succ fuel =>
    if g.ai_pos = 0 then
      match get_end_state (ai_half_state g (scripts.headD [])) with
      | some msg => (ai_half_events g (scripts.headD []) ++ [Event.checked (some msg)],
                     Outcome.gameOver msg)
      | none =>
        match (human_loop (ai_half_state g (scripts.headD [])) inputs).2.2 with
        | none => (ai_half_events g (scripts.headD []) ++ [Event.checked none] ++
                     (human_loop (ai_half_state g (scripts.headD [])) inputs).1,
                   Outcome.blocked)
        | some HumanStep.quit =>
            (ai_half_events g (scripts.headD []) ++ [Event.checked none] ++
               (human_loop (ai_half_state g (scripts.headD [])) inputs).1,
             Outcome.userQuit)
        | some (HumanStep.moved g2) =>
          match get_end_state g2 with
          | some msg => (ai_half_events g (scripts.headD []) ++ [Event.checked none] ++
                           (human_loop (ai_half_state g (scripts.headD [])) inputs).1 ++
                           [Event.checked (some msg)],
                         Outcome.gameOver msg)
          | none =>
            (ai_half_events g (scripts.headD []) ++ [Event.checked none] ++
               (human_loop (ai_half_state g (scripts.headD [])) inputs).1 ++
               [Event.checked none] ++
               (session fuel g2 (human_loop (ai_half_state g (scripts.headD [])) inputs).2.1
                 scripts.tail).1,
             (session fuel g2 (human_loop (ai_half_state g (scripts.headD [])) inputs).2.1
               scripts.tail).2)
    else
      match (human_loop g inputs).2.2 with
      | none => ((human_loop g inputs).1, Outcome.blocked)
      | some HumanStep.quit => ((human_loop g inputs).1, Outcome.userQuit)
      | some (HumanStep.moved g2) =>
        match get_end_state g2 with
        | some msg => ((human_loop g inputs).1 ++ [Event.checked (some msg)],
                       Outcome.gameOver msg)
        | none =>
          match get_end_state (ai_half_state g2 (scripts.headD [])) with
          | some msg => ((human_loop g inputs).1 ++ [Event.checked none] ++
                           ai_half_events g2 (scripts.headD []) ++ [Event.checked (some msg)],
                         Outcome.gameOver msg)
          | none =>
            ((human_loop g inputs).1 ++ [Event.checked none] ++
               ai_half_events g2 (scripts.headD []) ++ [Event.checked none] ++
               (session fuel (ai_half_state g2 (scripts.headD []))
                 (human_loop g inputs).2.1 scripts.tail).1,
             (session fuel (ai_half_state g2 (scripts.headD []))
               (human_loop g inputs).2.1 scripts.tail).2)

end SessionModel

section AgentLemmas

variable {E : Engine}

/-- A `make_ai_move` call out of turn raises "Not AI's turn.". -/
lemma make_ai_move_not_turn {g : GameState E} {m : String}
    (h : is_ai_turn g = false) : make_ai_move g m = .error .notAITurn := by
  rw [make_ai_move, if_neg (by simp [h])]

/-- A `make_ai_move` call by the AI on a listed legal move succeeds and
appends the move to the history. -/
lemma make_ai_move_of_legal {g : GameState E} {m : String}
    (ht : is_ai_turn g = true) (hm : m ∈ legal_moves g) :
    ∃ p, make_ai_move g m = .ok { g with pos := p, history := g.history ++ [m] } := by
  have hsome : (E.pushSan g.pos m).isSome = true := (E.pushSan_isSome g.pos m).mpr hm
  rcases Option.isSome_iff_exists.mp hsome with ⟨p, hp⟩
  exact ⟨p, make_ai_move_ok_iff.mpr ⟨ht, p, hp, rfl⟩⟩

/-- Dropped error: `tryMove` out of turn leaves the state unchanged. -/
lemma tryMove_not_turn {g : GameState E} {m : String}
    (h : is_ai_turn g = false) : tryMove g m = g := by
  rw [tryMove, make_ai_move_not_turn h]

/-- A `tryMove` either leaves the state unchanged or appends exactly the
submitted move to the history. -/
lemma tryMove_cases (g : GameState E) (m : String) :
    tryMove g m = g ∨ (tryMove g m).history = g.history ++ [m] := by
  rw [tryMove]
  cases h : make_ai_move g m with
  | error e => exact Or.inl rfl
  | ok g' =>
    right
    rcases make_ai_move_ok_iff.mp h with ⟨-, p, -, rfl⟩
    rfl

/-- A dispatched tool call either leaves the state unchanged or appends
exactly its argument to the history. -/
lemma callTool_cases (g : GameState E) (t : Tool) (a : String) :
    (callTool g t a).2 = g ∨ ((callTool g t a).2).history = g.history ++ [a] := by
  cases t <;> first
    | exact tryMove_cases g a
    | exact Or.inl rfl

/-- When it is not the AI's turn, no tool call changes the state, so the
whole agent run leaves it unchanged. -/
lemma run_agent_state_of_not_turn {g : GameState E} (s : List (Tool × String))
    (h : is_ai_turn g = false) : (run_agent g s).2 = g := by
  induction s generalizing g with
  | nil => rfl
  | cons c rest ih =>
    obtain ⟨t, a⟩ := c
    by_cases hin : t ∈ agentTools
    · have hstate : (callTool g t a).2 = g := by
        cases t <;> simp only [callTool]
        exact tryMove_not_turn h
      simp only [run_agent, if_pos hin, hstate]
      exact ih h
    · simp only [run_agent, if_neg hin]
      exact ih h

/-- The history length never decreases along an agent run. -/
lemma run_agent_hist_le (g : GameState E) (s : List (Tool × String)) :
    g.history.length ≤ ((run_agent g s).2).history.length := by
  induction s generalizing g with
  | nil => exact Nat.le_refl _
  | cons c rest ih =>
    obtain ⟨t, a⟩ := c
    by_cases hin : t ∈ agentTools
    · simp only [run_agent, if_pos hin]
      refine Nat.le_trans ?_ (ih (callTool g t a).2)
      rcases callTool_cases g t a with h | h
      · rw [h]
      · rw [h]; simp
    · simp only [run_agent, if_neg hin]
      exact ih g

/-- An agent run that ends with the initial history committed no move at
all: the final state is the initial state. -/
lemma run_agent_state_of_hist_eq {g : GameState E} {s : List (Tool × String)}
    (h : ((run_agent g s).2).history = g.history) : (run_agent g s).2 = g := by
  induction s generalizing g with
  | nil => rfl
  | cons c rest ih =>
    obtain ⟨t, a⟩ := c
    by_cases hin : t ∈ agentTools
    · simp only [run_agent, if_pos hin] at h ⊢
      rcases callTool_cases g t a with hc | hc
      · rw [hc] at h ⊢
        exact ih h
      · exfalso
        have hle := run_agent_hist_le (callTool g t a).2 rest
        rw [hc] at hle
        simp only [List.length_append, List.length_singleton] at hle
        have := congrArg List.length h
        omega
    · simp only [run_agent, if_neg hin] at h ⊢
      exact ih h

/-- Starting from the AI's turn, an agent run either commits no move (the
state is unchanged) or commits exactly one move, after which the turn has
flipped away from the AI. -/
lemma run_agent_dichotomy {g : GameState E} (s : List (Tool × String))
    (h : is_ai_turn g = true) :
    (run_agent g s).2 = g ∨
      (is_ai_turn (run_agent g s).2 = false ∧
        ((run_agent g s).2).history.length = g.history.length + 1) := by
  induction s generalizing g with
  | nil => exact Or.inl rfl
  | cons c rest ih =>
    obtain ⟨t, a⟩ := c
    by_cases hin : t ∈ agentTools
    · simp only [run_agent, if_pos hin]
      cases t with
      | make_ai_move =>
        simp only [callTool]
        cases hm : make_ai_move g a with
        | error e =>
          have : tryMove g a = g := by rw [tryMove, hm]
          rw [this]
          exact ih h
        | ok g' =>
          have hstate : tryMove g a = g' := by rw [tryMove, hm]
          have hflip : is_ai_turn g' = false := by
            rw [is_ai_turn_flip (Or.inl hm), h]
            rfl
          have hhist : g'.history.length = g.history.length + 1 := by
            rcases make_ai_move_ok_iff.mp hm with ⟨-, p, -, rfl⟩
            simp
          rw [hstate, run_agent_state_of_not_turn rest hflip]
          exact Or.inr ⟨hflip, hhist⟩
      | get_move_history => simp only [callTool]; exact ih h
      | legal_moves => simp only [callTool]; exact ih h
      | possible_captures => simp only [callTool]; exact ih h
      | possible_checks => simp only [callTool]; exact ih h
      | is_ai_turn => simp only [callTool]; exact ih h
    · simp only [run_agent, if_neg hin]
      exact ih h

/-- The head of a nonempty list is a member. -/
lemma headD_mem {α : Type} {l : List α} (h : l ≠ []) (d : α) : l.headD d ∈ l := by
  cases l with
  | nil => exact absurd rfl h
  | cons x xs => simp

end AgentLemmas

section ClaimC3C7C8C9

variable {E : Engine}

/-- Claim C3 (confirmed): for every automated turn in which the agent
invocation completes without committing a move (its run leaves the move
history unchanged), the loop's failsafe commits exactly one move, namely
the first element of `legal_moves()` evaluated immediately before the
fallback fires (the position then being unchanged since the agent
committed nothing). -/
theorem C3_fallback_first_legal (g : GameState E) (script : List (Tool × String))
    (h1 : is_ai_turn g = true)
    (h2 : ((run_agent g script).2).history = g.history)
    (h3 : legal_moves g ≠ []) :
    (ai_half_state g script).history = g.history ++ [(legal_moves g).headD ""] := by
  have hu := run_agent_state_of_hist_eq h2
  rw [ai_half_state, hu, if_pos h1]
  rcases make_ai_move_of_legal h1 (headD_mem h3 "") with ⟨p, hp⟩
  rw [tryMove, hp]

/-- Witness for C3: with an empty agent script (the agent calls no tool)
at the initial test position, the failsafe commits the first legal move. -/
theorem C3_witness :
    is_ai_turn (⟨[], [], 0⟩ : GameState TestEngine) = true ∧
    ((run_agent (⟨[], [], 0⟩ : GameState TestEngine) []).2).history = [] ∧
    legal_moves (⟨[], [], 0⟩ : GameState TestEngine) ≠ [] ∧
    (ai_half_state (⟨[], [], 0⟩ : GameState TestEngine) []).history =
      (⟨[], [], 0⟩ : GameState TestEngine).history ++
        [(legal_moves (⟨[], [], 0⟩ : GameState TestEngine)).headD ""] :=
  ⟨rfl, rfl, by decide,
   C3_fallback_first_legal (⟨[], [], 0⟩ : GameState TestEngine) [] rfl rfl (by decide)⟩

/-- Claim C7 (confirmed): when the human enters "help" (case-insensitive)
at the move prompt, the loop displays exactly `legal_moves()` at the
current position, consumes no ply and changes no GameState (the remaining
inputs are processed against the very same state), and re-prompts. -/
theorem C7_help_no_state_change (g : GameState E) (i : String) (rest : List String)
    (h : pyLower i = "help") :
    human_loop g (i :: rest) =
      (Event.prompted :: Event.helped (legal_moves g) :: (human_loop g rest).1,
       (human_loop g rest).2.1, (human_loop g rest).2.2) := by
  have hq : ¬ pyLower i = "quit" := by rw [h]; decide
  simp only [human_loop, if_neg hq, if_pos h]

/-- Witness for C7: the input "Help" (mixed case) displays the legal moves
of the current position and consumes nothing. -/
theorem C7_witness :
    pyLower "Help" = "help" ∧
    human_loop (⟨[], [], 1⟩ : GameState TestEngine) ["Help"] =
      (Event.prompted ::
         Event.helped (legal_moves (⟨[], [], 1⟩ : GameState TestEngine)) ::
         (human_loop (⟨[], [], 1⟩ : GameState TestEngine) []).1,
       (human_loop (⟨[], [], 1⟩ : GameState TestEngine) []).2.1,
       (human_loop (⟨[], [], 1⟩ : GameState TestEngine) []).2.2) :=
  ⟨by decide, C7_help_no_state_change (⟨[], [], 1⟩ : GameState TestEngine) "Help" [] (by decide)⟩

/-- Claim C8 (counterexample): the claim says the agent is invoked with all
five query operations of the specification — including `is_current_turn`
(the notebook's `is_ai_turn`) — plus the move-submission tool; but the tool
list actually passed to `model.act` is `[get_move_history, legal_moves,
possible_captures, possible_checks, make_ai_move]`: the turn-query tool is
not in it. -/
theorem C8_counterexample : Tool.is_ai_turn ∉ agentTools := by decide

/-- Claim C8 (amended): during every automated turn the agent is invoked
with exactly four query tools (`get_move_history`, `legal_moves`,
`possible_captures`, `possible_checks`) plus the move-submission tool
restricted to the automated side (`make_ai_move`); the turn query
`is_ai_turn` is not part of the capability set. -/
theorem C8_amended_tool_list :
    (∀ t : Tool, t ∈ agentTools ↔
      (t = Tool.get_move_history ∨ t = Tool.legal_moves ∨ t = Tool.possible_captures ∨
       t = Tool.possible_checks ∨ t = Tool.make_ai_move)) ∧
    Tool.is_ai_turn ∉ agentTools := by
  refine ⟨fun t => ?_, by decide⟩
  cases t <;> decide

/-- Claim C9 (confirmed): in every automated turn exactly one AI ply is
committed: a successful `make_ai_move` flips the side to move, so any
second `make_ai_move` call raises "Not AI's turn." (leaving the board
unchanged, as the error result commits no state), and the first-legal-move
failsafe (guarded by `is_ai_turn()`) fires only when the agent committed no
move — so the AI half always grows the history by exactly one ply. -/
theorem C9_exactly_one_ai_ply (g g' : GameState E) (m m' : String)
    (script : List (Tool × String)) :
    (make_ai_move g m = .ok g' → make_ai_move g' m' = .error .notAITurn) ∧
    (is_ai_turn g = true → legal_moves g ≠ [] →
      (ai_half_state g script).history.length = g.history.length + 1) := by
  constructor
  · intro h
    have hflip : is_ai_turn g' = false := by
      rw [is_ai_turn_flip (Or.inl h), is_ai_turn_of_make_ai_move_ok h]
      rfl
    exact make_ai_move_not_turn hflip
  · intro ht hleg
    rcases run_agent_dichotomy script ht with hu | ⟨hf, hlen⟩
    · rw [ai_half_state, hu, if_pos ht]
      rcases make_ai_move_of_legal ht (headD_mem hleg "") with ⟨p, hp⟩
      rw [tryMove, hp]
      simp
    · rw [ai_half_state, if_neg (by simp [hf])]
      exact hlen

/-- Witness for C9: at the initial test position the AI commits "a"; a
second submission "b" is rejected out of turn; and the AI half with an
agent script that commits one move grows the history by exactly one. -/
theorem C9_witness :
    make_ai_move (⟨[], [], 0⟩ : GameState TestEngine) "a" = .ok ⟨["a"], ["a"], 0⟩ ∧
    make_ai_move (⟨["a"], ["a"], 0⟩ : GameState TestEngine) "b" = .error .notAITurn ∧
    (ai_half_state (⟨[], [], 0⟩ : GameState TestEngine)
        [(Tool.make_ai_move, "b")]).history.length =
      (⟨[], [], 0⟩ : GameState TestEngine).history.length + 1 :=
  ⟨rfl,
   (C9_exactly_one_ai_ply (⟨[], [], 0⟩ : GameState TestEngine) ⟨["a"], ["a"], 0⟩ "a" "b"
      [(Tool.make_ai_move, "b")]).1 rfl,
   (C9_exactly_one_ai_ply (⟨[], [], 0⟩ : GameState TestEngine) ⟨["a"], ["a"], 0⟩ "a" "b"
      [(Tool.make_ai_move, "b")]).2 rfl (by decide)⟩

end ClaimC3C7C8C9

/-- True exactly on the `quitEntered` event. -/
def isQuitEv : Event → Bool
  | Event.quitEntered => true
  | _ => false

/-- True exactly on a `checked (some msg)` event (the loop saw a game-over
message). -/
def isCheckSomeEv : Event → Bool
  | Event.checked (some _) => true
  | _ => false

/-- Events that can appear in an agent run: neither a quit nor a game-over
check. -/
def evSafe (e : Event) : Bool := !isQuitEv e && !isCheckSomeEv e

/-- `stopsAt p tr = true` when any event satisfying `p` in `tr` is the very
last event of `tr`: nothing at all happens after it. -/
def stopsAt (p : Event → Bool) : List Event → Bool
  | [] => true
  | e :: rest => if p e then rest.isEmpty else stopsAt p rest

section TraceLemmas

lemma stopsAt_append {p : Event → Bool} {l1 : List Event} (l2 : List Event)
    (h : l1.all (fun e => !p e) = true) :
    stopsAt p (l1 ++ l2) = stopsAt p l2 := by
  induction l1 with
  | nil => rfl
  | cons e l ih =>
    simp only [List.all_cons, Bool.and_eq_true, Bool.not_eq_true'] at h
    simp only [List.cons_append, stopsAt, h.1, Bool.false_eq_true, if_false]
    exact ih h.2

lemma stopsAt_of_all {p : Event → Bool} {l : List Event}
    (h : l.all (fun e => !p e) = true) : stopsAt p l = true := by
  induction l with
  | nil => rfl
  | cons e l ih =>
    simp only [List.all_cons, Bool.and_eq_true, Bool.not_eq_true'] at h
    simp only [stopsAt, h.1, Bool.false_eq_true, if_false]
    exact ih h.2

lemma stopsAt_append_last {p : Event → Bool} {l1 : List Event} (e : Event)
    (h : l1.all (fun e => !p e) = true) : stopsAt p (l1 ++ [e]) = true := by
  rw [stopsAt_append [e] h]
  cases hp : p e <;> simp [stopsAt, hp]

lemma stopsAt_decomp {p : Event → Bool} (pre : List Event) {e : Event} {post : List Event}
    (h : stopsAt p (pre ++ e :: post) = true) (hp : p e = true) : post = [] := by
  induction pre with
  | nil =>
    simp only [List.nil_append, stopsAt, hp, if_true] at h
    simpa using h
  | cons x l ih =>
    simp only [List.cons_append, stopsAt] at h
    by_cases hx : p x = true
    · rw [if_pos hx] at h
      simp at h
    · rw [if_neg hx] at h
      exact ih h

lemma not_mem_of_all_not {p : Event → Bool} {l : List Event}
    (h : l.all (fun e => !p e) = true) {e : Event} (hp : p e = true) : e ∉ l := by
  intro hm
  have h2 := List.all_eq_true.mp h e hm
  rw [hp] at h2
  simp at h2

lemma evSafe_quit_false {e : Event} (h : evSafe e = true) : isQuitEv e = false := by
  rw [evSafe] at h
  cases hq : isQuitEv e
  · rfl
  · rw [hq] at h
    simp at h

lemma evSafe_check_false {e : Event} (h : evSafe e = true) : isCheckSomeEv e = false := by
  rw [evSafe] at h
  cases hc : isCheckSomeEv e
  · rfl
  · rw [hc] at h
    simp at h

lemma all_evSafe_no_quit {l : List Event} (h : l.all evSafe = true) :
    l.all (fun e => !isQuitEv e) = true := by
  induction l with
  | nil => rfl
  | cons e l ih =>
    simp only [List.all_cons, Bool.and_eq_true] at h ⊢
    exact ⟨by rw [evSafe_quit_false h.1]; rfl, ih h.2⟩

lemma all_evSafe_no_check {l : List Event} (h : l.all evSafe = true) :
    l.all (fun e => !isCheckSomeEv e) = true := by
  induction l with
  | nil => rfl
  | cons e l ih =>
    simp only [List.all_cons, Bool.and_eq_true] at h ⊢
    exact ⟨by rw [evSafe_check_false h.1]; rfl, ih h.2⟩

end TraceLemmas

section EventSafety

variable {E : Engine}

lemma callTool_events_safe (g : GameState E) (t : Tool) (a : String) :
    ((callTool g t a).1).all evSafe = true := by
  cases t <;> rfl

lemma run_agent_events_safe (g : GameState E) (s : List (Tool × String)) :
    ((run_agent g s).1).all evSafe = true := by
  induction s generalizing g with
  | nil => rfl
  | cons c rest ih =>
    obtain ⟨t, a⟩ := c
    by_cases hin : t ∈ agentTools
    · simp only [run_agent, if_pos hin, List.all_append, Bool.and_eq_true]
      exact ⟨callTool_events_safe g t a, ih (callTool g t a).2⟩
    · simp only [run_agent, if_neg hin]
      exact ih g

lemma ai_half_events_safe (g : GameState E) (s : List (Tool × String)) :
    (ai_half_events g s).all evSafe = true := by
  rw [ai_half_events]
  split
  · simp only [List.all_cons, List.all_append, Bool.and_eq_true]
    exact ⟨⟨rfl, run_agent_events_safe g s⟩, rfl, rfl⟩
  · simp only [List.all_cons, Bool.and_eq_true]
    exact ⟨rfl, run_agent_events_safe g s⟩

lemma human_loop_no_check (g : GameState E) (inputs : List String) :
    ((human_loop g inputs).1).all (fun e => !isCheckSomeEv e) = true := by
  induction inputs generalizing g with
  | nil => rfl
  | cons i rest ih =>
    by_cases hq : pyLower i = "quit"
    · simp only [human_loop, if_pos hq]
      rfl
    · by_cases hh : pyLower i = "help"
      · simp only [human_loop, if_neg hq, if_pos hh, List.all_cons, Bool.and_eq_true]
        exact ⟨rfl, rfl, ih g⟩
      · cases hmu : make_user_move g i with
        | ok g2 =>
          simp only [human_loop, if_neg hq, if_neg hh, hmu]
          rfl
        | error e =>
          simp only [human_loop, if_neg hq, if_neg hh, hmu, List.all_cons, Bool.and_eq_true]
          exact ⟨rfl, rfl, rfl, ih g⟩

lemma human_loop_quit_shape {g : GameState E} {inputs : List String}
    (heq : (human_loop g inputs).2.2 = some HumanStep.quit) :
    ∃ l, (human_loop g inputs).1 = l ++ [Event.quitEntered] ∧
      l.all (fun e => !isQuitEv e) = true := by
  induction inputs generalizing g with
  | nil => cases heq
  | cons i rest ih =>
    by_cases hq : pyLower i = "quit"
    · simp only [human_loop, if_pos hq]
      exact ⟨[Event.prompted], rfl, rfl⟩
    · by_cases hh : pyLower i = "help"
      · simp only [human_loop, if_neg hq, if_pos hh] at heq ⊢
        rcases ih heq with ⟨l, hl, ha⟩
        refine ⟨Event.prompted :: Event.helped (legal_moves g) :: l, by simp [hl], ?_⟩
        simp only [List.all_cons, Bool.and_eq_true]
        exact ⟨rfl, rfl, ha⟩
      · cases hmu : make_user_move g i with
        | ok g2 =>
          simp only [human_loop, if_neg hq, if_neg hh, hmu] at heq
          cases heq
        | error e =>
          simp only [human_loop, if_neg hq, if_neg hh, hmu] at heq ⊢
          rcases ih heq with ⟨l, hl, ha⟩
          refine ⟨Event.prompted :: Event.moveCall i :: Event.rejected :: l, by simp [hl], ?_⟩
          simp only [List.all_cons, Bool.and_eq_true]
          exact ⟨rfl, rfl, rfl, ha⟩

lemma human_loop_no_quit {g : GameState E} {inputs : List String}
    (hne : (human_loop g inputs).2.2 ≠ some HumanStep.quit) :
    ((human_loop g inputs).1).all (fun e => !isQuitEv e) = true := by
  induction inputs generalizing g with
  | nil => rfl
  | cons i rest ih =>
    by_cases hq : pyLower i = "quit"
    · exfalso
      apply hne
      simp only [human_loop, if_pos hq]
    · by_cases hh : pyLower i = "help"
      · simp only [human_loop, if_neg hq, if_pos hh] at hne ⊢
        simp only [List.all_cons, Bool.and_eq_true]
        exact ⟨rfl, rfl, ih hne⟩
      · cases hmu : make_user_move g i with
        | ok g2 =>
          simp only [human_loop, if_neg hq, if_neg hh, hmu]
          rfl
        | error e =>
          simp only [human_loop, if_neg hq, if_neg hh, hmu] at hne ⊢
          simp only [List.all_cons, Bool.and_eq_true]
          exact ⟨rfl, rfl, rfl, ih hne⟩

end EventSafety

/-- The two trace properties of a session run and their link to the
outcome: any `quitEntered` and any game-over `checked` event is final, a
quit in the trace means the run ended by user quit, and a game-over check
in the trace means the run ended with that game-over message. -/
def TraceOK (tr : List Event) (oc : Outcome) : Prop :=
  stopsAt isQuitEv tr = true ∧
  stopsAt isCheckSomeEv tr = true ∧
  (Event.quitEntered ∈ tr → oc = Outcome.userQuit) ∧
  (∀ msg, Event.checked (some msg) ∈ tr → oc = Outcome.gameOver msg)

section TraceOKLemmas

lemma all_append_of {p : Event → Bool} {l1 l2 : List Event}
    (h1 : l1.all p = true) (h2 : l2.all p = true) : (l1 ++ l2).all p = true := by
  simp [List.all_append, h1, h2]

lemma traceOK_end {l1 : List Event} (msg : String)
    (hq : l1.all (fun e => !isQuitEv e) = true)
    (hc : l1.all (fun e => !isCheckSomeEv e) = true) :
    TraceOK (l1 ++ [Event.checked (some msg)]) (Outcome.gameOver msg) := by
  refine ⟨stopsAt_append_last _ hq, stopsAt_append_last _ hc, ?_, ?_⟩
  · intro hm
    exfalso
    rcases List.mem_append.mp hm with hm1 | hm2
    · exact absurd hm1 (not_mem_of_all_not hq (by rfl))
    · simp at hm2
  · intro msg' hm
    rcases List.mem_append.mp hm with hm1 | hm2
    · exact absurd hm1 (not_mem_of_all_not hc (by rfl))
    · have h2 := List.mem_singleton.mp hm2
      simp only [Event.checked.injEq, Option.some.injEq] at h2
      rw [h2]

lemma traceOK_quit {l1 l : List Event}
    (hq1 : l1.all (fun e => !isQuitEv e) = true)
    (hc1 : l1.all (fun e => !isCheckSomeEv e) = true)
    (hql : l.all (fun e => !isQuitEv e) = true)
    (hc2 : (l ++ [Event.quitEntered]).all (fun e => !isCheckSomeEv e) = true) :
    TraceOK (l1 ++ (l ++ [Event.quitEntered])) Outcome.userQuit := by
  refine ⟨?_, ?_, fun _ => rfl, ?_⟩
  · rw [stopsAt_append _ hq1]
    exact stopsAt_append_last _ hql
  · exact stopsAt_of_all (all_append_of hc1 hc2)
  · intro msg' hm
    exact absurd hm (not_mem_of_all_not (all_append_of hc1 hc2) (by rfl))

lemma traceOK_silent {tr : List Event} (oc : Outcome)
    (hq : tr.all (fun e => !isQuitEv e) = true)
    (hc : tr.all (fun e => !isCheckSomeEv e) = true) :
    TraceOK tr oc := by
  refine ⟨stopsAt_of_all hq, stopsAt_of_all hc, ?_, ?_⟩
  · intro hm
    exact absurd hm (not_mem_of_all_not hq (by rfl))
  · intro msg hm
    exact absurd hm (not_mem_of_all_not hc (by rfl))

lemma traceOK_cont {l1 tr2 : List Event} {oc : Outcome}
    (hq1 : l1.all (fun e => !isQuitEv e) = true)
    (hc1 : l1.all (fun e => !isCheckSomeEv e) = true)
    (H : TraceOK tr2 oc) :
    TraceOK (l1 ++ tr2) oc := by
  obtain ⟨H1, H2, H3, H4⟩ := H
  refine ⟨?_, ?_, ?_, ?_⟩
  · rw [stopsAt_append _ hq1]
    exact H1
  · rw [stopsAt_append _ hc1]
    exact H2
  · intro hm
    rcases List.mem_append.mp hm with hm1 | hm2
    · exact absurd hm1 (not_mem_of_all_not hq1 (by rfl))
    · exact H3 hm2
  · intro msg hm
    rcases List.mem_append.mp hm with hm1 | hm2
    · exact absurd hm1 (not_mem_of_all_not hc1 (by rfl))
    · exact H4 msg hm2

end TraceOKLemmas

section SessionMaster

variable {E : Engine}

/-- Every session run satisfies `TraceOK`: a quit or a game-over check is
always the final event of the trace, a quit forces the `userQuit` outcome,
and a game-over check forces the corresponding `gameOver` outcome. -/
lemma session_traceOK (fuel : Nat) :
    ∀ (g : GameState E) (inputs : List String) (scripts : List (List (Tool × String)))
      (tr : List Event) (oc : Outcome),
      session fuel g inputs scripts = (tr, oc) → TraceOK tr oc := by
  induction fuel with
  | zero =>
    intro g inputs scripts tr oc h
    simp only [session] at h
    injection h with h1 h2
    subst h1
    subst h2
    refine ⟨rfl, rfl, ?_, ?_⟩
    · intro hm
      exact absurd hm (List.not_mem_nil _)
    · intro msg hm
      exact absurd hm (List.not_mem_nil _)
  | succ n ih =>
    intro g inputs scripts tr oc h
    by_cases hpos : g.ai_pos = 0
    · simp only [session] at h
      rw [if_pos hpos] at h
      split at h
      · -- game over directly after the AI half
        rename_i msg heq
        injection h with h1 h2
        subst h1
        subst h2
        exact traceOK_end msg
          (all_evSafe_no_quit (ai_half_events_safe g (scripts.headD [])))
          (all_evSafe_no_check (ai_half_events_safe g (scripts.headD [])))
      · rename_i heq0
        split at h
        · -- input stream exhausted inside the user loop
          rename_i heq1
          injection h with h1 h2
          subst h1
          subst h2
          have hne : (human_loop (ai_half_state g (scripts.headD [])) inputs).2.2 ≠
              some HumanStep.quit := by
            rw [heq1]
            simp
          exact traceOK_silent _
            (all_append_of
              (all_append_of
                (all_evSafe_no_quit (ai_half_events_safe g (scripts.headD []))) rfl)
              (human_loop_no_quit hne))
            (all_append_of
              (all_append_of
                (all_evSafe_no_check (ai_half_events_safe g (scripts.headD []))) rfl)
              (human_loop_no_check _ _))
        · -- the user quit
          rename_i heq1
          injection h with h1 h2
          subst h1
          subst h2
          obtain ⟨l, hl, hql⟩ := human_loop_quit_shape heq1
          rw [hl]
          exact traceOK_quit
            (all_append_of
              (all_evSafe_no_quit (ai_half_events_safe g (scripts.headD []))) rfl)
            (all_append_of
              (all_evSafe_no_check (ai_half_events_safe g (scripts.headD []))) rfl)
            hql (hl ▸ human_loop_no_check _ _)
        · -- the user moved
          rename_i g2 heq1
          have hne : (human_loop (ai_half_state g (scripts.headD [])) inputs).2.2 ≠
              some HumanStep.quit := by
            rw [heq1]
            simp
          split at h
          · -- game over after the user move
            rename_i msg heq2
            injection h with h1 h2
            subst h1
            subst h2
            exact traceOK_end msg
              (all_append_of
                (all_append_of
                  (all_evSafe_no_quit (ai_half_events_safe g (scripts.headD []))) rfl)
                (human_loop_no_quit hne))
              (all_append_of
                (all_append_of
                  (all_evSafe_no_check (ai_half_events_safe g (scripts.headD []))) rfl)
                (human_loop_no_check _ _))
          · -- continue with the next iteration
            rename_i heq2
            injection h with h1 h2
            subst h1
            subst h2
            exact traceOK_cont
              (all_append_of
                (all_append_of
                  (all_append_of
                    (all_evSafe_no_quit (ai_half_events_safe g (scripts.headD []))) rfl)
                  (human_loop_no_quit hne)) rfl)
              (all_append_of
                (all_append_of
                  (all_append_of
                    (all_evSafe_no_check (ai_half_events_safe g (scripts.headD []))) rfl)
                  (human_loop_no_check _ _)) rfl)
              (ih g2 (human_loop (ai_half_state g (scripts.headD [])) inputs).2.1
                scripts.tail _ _ rfl)
    · simp only [session] at h
      rw [if_neg hpos] at h
      split at h
      · -- input stream exhausted inside the user loop
        rename_i heq1
        injection h with h1 h2
        subst h1
        subst h2
        have hne : (human_loop g inputs).2.2 ≠ some HumanStep.quit := by
          rw [heq1]
          simp
        exact traceOK_silent _ (human_loop_no_quit hne) (human_loop_no_check _ _)
      · -- the user quit
        rename_i heq1
        injection h with h1 h2
        subst h1
        subst h2
        obtain ⟨l, hl, hql⟩ := human_loop_quit_shape heq1
        rw [hl]
        exact @traceOK_quit [] l rfl rfl hql (hl ▸ human_loop_no_check _ _)
      · -- the user moved
        rename_i g2 heq1
        have hne : (human_loop g inputs).2.2 ≠ some HumanStep.quit := by
          rw [heq1]
          simp
        split at h
        · -- game over after the user move
          rename_i msg heq2
          injection h with h1 h2
          subst h1
          subst h2
          exact traceOK_end msg (human_loop_no_quit hne) (human_loop_no_check _ _)
        · rename_i heq2
          split at h
          · -- game over after the AI half
            rename_i msg heq3
            injection h with h1 h2
            subst h1
            subst h2
            exact traceOK_end msg
              (all_append_of
                (all_append_of (human_loop_no_quit hne) rfl)
                (all_evSafe_no_quit (ai_half_events_safe g2 (scripts.headD []))))
              (all_append_of
                (all_append_of (human_loop_no_check _ _) rfl)
                (all_evSafe_no_check (ai_half_events_safe g2 (scripts.headD []))))
          · -- continue with the next iteration
            rename_i heq3
            injection h with h1 h2
            subst h1
            subst h2
            exact traceOK_cont
              (all_append_of
                (all_append_of
                  (all_append_of (human_loop_no_quit hne) rfl)
                  (all_evSafe_no_quit (ai_half_events_safe g2 (scripts.headD [])))) rfl)
              (all_append_of
                (all_append_of
                  (all_append_of (human_loop_no_check _ _) rfl)
                  (all_evSafe_no_check (ai_half_events_safe g2 (scripts.headD [])))) rfl)
              (ih (ai_half_state g2 (scripts.headD []))
                (human_loop g inputs).2.1 scripts.tail _ _ rfl)

end SessionMaster

section ClaimC4C5

variable {E : Engine}

/-- Claim C4 (confirmed): once the human enters the literal token "quit"
(case-insensitive) at the move prompt — the `quitEntered` trace event — the
session ends with the user-quit outcome and nothing further happens in the
run: the trace ends at the quit, so in particular no further
move-submission call (`make_ai_move` or `make_user_move`) is ever
invoked. -/
theorem C4_quit_terminates (fuel : Nat) (g : GameState E)
    (inputs : List String) (scripts : List (List (Tool × String)))
    (pre post : List Event)
    (h : (session fuel g inputs scripts).1 = pre ++ Event.quitEntered :: post) :
    post = [] ∧ (session fuel g inputs scripts).2 = Outcome.userQuit := by
  obtain ⟨H1, -, H3, -⟩ := session_traceOK fuel g inputs scripts
    (session fuel g inputs scripts).1 (session fuel g inputs scripts).2 rfl
  constructor
  · rw [h] at H1
    exact stopsAt_decomp pre H1 rfl
  · apply H3
    rw [h]
    exact List.mem_append_right _ (List.mem_cons_self _ _)

/-- Witness for C4: a session on the test engine in which the human's first
input is "quit": the trace is a prompt followed by the quit, nothing comes
after it, and the outcome is the user quit. -/
theorem C4_witness :
    (session 1 (⟨[], [], 1⟩ : GameState TestEngine) ["quit"] []).1 =
      [Event.prompted] ++ Event.quitEntered :: [] ∧
    (([] : List Event) = [] ∧
      (session 1 (⟨[], [], 1⟩ : GameState TestEngine) ["quit"] []).2 = Outcome.userQuit) :=
  ⟨rfl, C4_quit_terminates 1 (⟨[], [], 1⟩ : GameState TestEngine) ["quit"] []
    [Event.prompted] [] rfl⟩

/-- Claim C5 (confirmed): the loop recomputes the termination message via
`get_end_state` after every successful ply (each recomputation is a
`checked` trace event carrying its value); a checkmate position recomputes
to "Checkmate!" (checkmate is tested first in `get_end_state`), and a trace
containing the game-over check ends right there — nothing follows it, in
particular no further prompt or agent invocation — with the session
outcome `gameOver "Checkmate!"`. -/
theorem C5_checkmate_terminates (fuel : Nat) (g : GameState E)
    (inputs : List String) (scripts : List (List (Tool × String)))
    (pre post : List Event)
    (h : (session fuel g inputs scripts).1 =
      pre ++ Event.checked (some "Checkmate!") :: post) :
    (∀ g' : GameState E, E.isCheckmate g'.pos = true →
      get_end_state g' = some "Checkmate!") ∧
    post = [] ∧
    (session fuel g inputs scripts).2 = Outcome.gameOver "Checkmate!" := by
  obtain ⟨-, H2, -, H4⟩ := session_traceOK fuel g inputs scripts
    (session fuel g inputs scripts).1 (session fuel g inputs scripts).2 rfl
  refine ⟨?_, ?_, ?_⟩
  · intro g' hc
    rw [get_end_state, if_pos hc]
  · rw [h] at H2
    exact stopsAt_decomp pre H2 rfl
  · apply H4
    rw [h]
    exact List.mem_append_right _ (List.mem_cons_self _ _)

/-- Witness for C5: a session on the test engine in which the human plays
"a" and the agent answers "b", reaching the two-ply checkmate of the test
engine: the game-over check is the last trace event and the outcome is
`gameOver "Checkmate!"`. -/
theorem C5_witness :
    (session 1 (⟨[], [], 1⟩ : GameState TestEngine) ["a"]
        [[(Tool.make_ai_move, "b")]]).1 =
      [Event.prompted, Event.moveCall "a", Event.checked none, Event.agentInvoked,
        Event.moveCall "b"] ++ Event.checked (some "Checkmate!") :: [] ∧
    ((∀ g' : GameState TestEngine, TestEngine.isCheckmate g'.pos = true →
        get_end_state g' = some "Checkmate!") ∧
      (([] : List Event) = [] ∧
        (session 1 (⟨[], [], 1⟩ : GameState TestEngine) ["a"]
            [[(Tool.make_ai_move, "b")]]).2 = Outcome.gameOver "Checkmate!")) :=
  ⟨rfl, C5_checkmate_terminates 1 (⟨[], [], 1⟩ : GameState TestEngine) ["a"]
    [[(Tool.make_ai_move, "b")]]
    [Event.prompted, Event.moveCall "a", Event.checked none, Event.agentInvoked,
      Event.moveCall "b"] [] rfl⟩

end ClaimC4C5

/-!
The `split_text` helper of the contract-analysis notebook.  Python strings
are modelled as `List Char`: `pySplit` is Python's `str.split()` (split on
whitespace runs, dropping empty pieces), `joinSpace` is `" ".join(...)`,
and `split_text` is the notebook's chunking loop.
-/

/-- Whitespace test used by Python's `str.split()`. -/
def isWs (c : Char) : Bool := c.isWhitespace

/-- Worker for `pySplit`: `acc` holds the reversed characters of the word
being read. -/
def pySplitAux : List Char → List Char → List (List Char)
  | [], acc => if acc.isEmpty then [] else [acc.reverse]
  | c :: cs, acc =>
    if isWs c then
      if acc.isEmpty then pySplitAux cs [] else acc.reverse :: pySplitAux cs []
    else
      pySplitAux cs (c :: acc)

/-- Python's `text.split()`: the whitespace-separated words of `text`, in
order, with no empty words. -/
def pySplit (s : List Char) : List (List Char) := pySplitAux s []

/-- Python's `" ".join(...)`. -/
def joinSpace : List (List Char) → List Char
  | [] => []
  | [c] => c
  | c :: cs => c ++ ' ' :: joinSpace cs

/-- The loop state of `split_text`: the finished chunks, the words of the
chunk being built (`current_chunk`), and `current_length`. -/
structure SplitSt where
  chunks : List (List Char)
  current_chunk : List (List Char)
  current_length : Nat

/-- One iteration of the `for word in words` loop of `split_text`: when
adding the word would exceed `max_tokens`, flush the current chunk first;
then append the word (to the fresh chunk in the flush case) and add its
length plus one (for the joining space). -/
def splitStep (max_tokens : Nat) (st : SplitSt) (word : List Char) : SplitSt :=
  if st.current_length + (word.length + 1) > max_tokens then
    { chunks := st.chunks ++ [joinSpace st.current_chunk],
      current_chunk := [word], current_length := word.length + 1 }
  else
    { chunks := st.chunks, current_chunk := st.current_chunk ++ [word],
      current_length := st.current_length + (word.length + 1) }

/-- `split_text(text, max_tokens)`: split `text` into whitespace words,
fold them into chunks, and append the unfinished chunk when nonempty. -/
def split_text (text : List Char) (max_tokens : Nat) : List (List Char) :=
  if ((pySplit text).foldl (splitStep max_tokens) ⟨[], [], 0⟩).current_chunk.isEmpty then
    ((pySplit text).foldl (splitStep max_tokens) ⟨[], [], 0⟩).chunks
  else
    ((pySplit text).foldl (splitStep max_tokens) ⟨[], [], 0⟩).chunks ++
      [joinSpace ((pySplit text).foldl (splitStep max_tokens) ⟨[], [], 0⟩).current_chunk]

/-- A word as produced by `pySplit`: nonempty and whitespace-free. -/
def wordOK (w : List Char) : Bool := !w.isEmpty && w.all (fun c => !isWs c)

section SplitTextLemmas

lemma pySplitAux_append_space :
    ∀ (xs acc ys : List Char),
      pySplitAux (xs ++ ' ' :: ys) acc = pySplitAux xs acc ++ pySplitAux ys [] := by
  intro xs
  induction xs with
  | nil =>
    intro acc ys
    have hws : isWs ' ' = true := by decide
    by_cases ha : acc.isEmpty
    · simp [pySplitAux, hws, ha]
    · simp [pySplitAux, hws, ha]
  | cons c cs ih =>
    intro acc ys
    by_cases hc : isWs c
    · by_cases ha : acc.isEmpty
      · simp only [List.cons_append, pySplitAux, hc, if_true, ha]
        exact ih [] ys
      · simp only [List.cons_append, pySplitAux, hc, if_true, ha, if_false,
          Bool.false_eq_true]
        exact congrArg (fun t => acc.reverse :: t) (ih [] ys)
    · simp only [List.cons_append, pySplitAux, hc, Bool.false_eq_true, if_false]
      exact ih (c :: acc) ys

lemma pySplit_joinSpace :
    ∀ chunks : List (List Char), pySplit (joinSpace chunks) = (chunks.map pySplit).flatten := by
  intro chunks
  induction chunks with
  | nil => rfl
  | cons c rest ih =>
    cases rest with
    | nil => simp [joinSpace]
    | cons d ds =>
      show pySplit (c ++ ' ' :: joinSpace (d :: ds)) = _
      rw [pySplit, pySplitAux_append_space c [] (joinSpace (d :: ds))]
      rw [show pySplitAux (joinSpace (d :: ds)) [] = pySplit (joinSpace (d :: ds)) from rfl]
      rw [ih]
      simp [pySplit]

lemma pySplitAux_mem_ok :
    ∀ (s acc : List Char), acc.all (fun c => !isWs c) = true →
      ∀ w ∈ pySplitAux s acc, wordOK w = true := by
  intro s
  induction s with
  | nil =>
    intro acc hacc w hw
    by_cases ha : acc.isEmpty
    · simp [pySplitAux, ha] at hw
    · simp only [pySplitAux, ha, Bool.false_eq_true, if_false, List.mem_singleton] at hw
      subst hw
      have hne : acc ≠ [] := by
        intro hnil
        rw [hnil] at ha
        exact ha rfl
      simp [wordOK, List.all_reverse, hacc, List.isEmpty_iff, hne]
  | cons c cs ih =>
    intro acc hacc w hw
    by_cases hc : isWs c
    · by_cases ha : acc.isEmpty
      · simp only [pySplitAux, hc, if_true, ha] at hw
        exact ih [] rfl w hw
      · simp only [pySplitAux, hc, if_true, ha, Bool.false_eq_true, if_false,
          List.mem_cons] at hw
        rcases hw with hw | hw
        · subst hw
          have hne : acc ≠ [] := by
            intro hnil
            rw [hnil] at ha
            exact ha rfl
          simp [wordOK, List.all_reverse, hacc, List.isEmpty_iff, hne]
        · exact ih [] rfl w hw
    · simp only [pySplitAux, hc, Bool.false_eq_true, if_false] at hw
      have : (c :: acc).all (fun x => !isWs x) = true := by
        simp [List.all_cons, hc, hacc]
      exact ih (c :: acc) this w hw

lemma pySplitAux_clean_word :
    ∀ (w acc : List Char), w.all (fun c => !isWs c) = true →
      pySplitAux w acc =
        if (acc.reverse ++ w).isEmpty then [] else [acc.reverse ++ w] := by
  intro w
  induction w with
  | nil =>
    intro acc h
    cases acc <;> simp [pySplitAux]
  | cons c cs ih =>
    intro acc h
    simp only [List.all_cons, Bool.and_eq_true, Bool.not_eq_true'] at h
    simp only [pySplitAux, h.1, Bool.false_eq_true, if_false]
    rw [ih (c :: acc) h.2]
    simp [List.reverse_cons, List.append_assoc]

lemma pySplit_of_wordOK {w : List Char} (h : wordOK w = true) : pySplit w = [w] := by
  rw [wordOK, Bool.and_eq_true] at h
  rw [pySplit, pySplitAux_clean_word w [] h.2]
  have hne : w.isEmpty = false := by
    cases hh : w.isEmpty
    · rfl
    · rw [hh] at h
      simp at h
  simp [hne]

lemma pySplit_joinSpace_run {run : List (List Char)}
    (h : ∀ w ∈ run, wordOK w = true) : pySplit (joinSpace run) = run := by
  rw [pySplit_joinSpace]
  induction run with
  | nil => rfl
  | cons w ws ih =>
    simp only [List.map_cons, List.flatten_cons]
    rw [pySplit_of_wordOK (h w (List.mem_cons_self _ _))]
    rw [ih (fun x hx => h x (List.mem_cons_of_mem _ hx))]
    simp

end SplitTextLemmas

/-- The words contained in a list of chunks, in order. -/
def chunkWords (cs : List (List Char)) : List (List Char) :=
  (cs.map pySplit).flatten

section SplitTextInvariant

lemma chunkWords_append (a b : List (List Char)) :
    chunkWords (a ++ b) = chunkWords a ++ chunkWords b := by
  simp [chunkWords, List.map_append, List.flatten_append]

lemma splitStep_fold_inv (mt : Nat) :
    ∀ (ws : List (List Char)) (st : SplitSt),
      (∀ w ∈ ws, wordOK w = true) →
      (∀ w ∈ st.current_chunk, wordOK w = true) →
      (chunkWords ((ws.foldl (splitStep mt) st).chunks) ++
          (ws.foldl (splitStep mt) st).current_chunk =
        chunkWords st.chunks ++ st.current_chunk ++ ws) ∧
      (∀ w ∈ (ws.foldl (splitStep mt) st).current_chunk, wordOK w = true) := by
  intro ws
  induction ws with
  | nil =>
    intro st h hc
    exact ⟨by simp, hc⟩
  | cons w ws ih =>
    intro st h hc
    have hw : wordOK w = true := h w (List.mem_cons_self _ _)
    have hrest : ∀ x ∈ ws, wordOK x = true := fun x hx => h x (List.mem_cons_of_mem _ hx)
    simp only [List.foldl_cons]
    by_cases hflush : st.current_length + (w.length + 1) > mt
    · have hstep : splitStep mt st w =
          ⟨st.chunks ++ [joinSpace st.current_chunk], [w], w.length + 1⟩ := by
        simp [splitStep, hflush]
      rw [hstep]
      have hcc1 : ∀ x ∈ ([w] : List (List Char)), wordOK x = true := by
        intro x hx
        rw [List.mem_singleton.mp hx]
        exact hw
      obtain ⟨ih1, ih2⟩ :=
        ih ⟨st.chunks ++ [joinSpace st.current_chunk], [w], w.length + 1⟩ hrest hcc1
      refine ⟨?_, ih2⟩
      rw [ih1]
      show chunkWords (st.chunks ++ [joinSpace st.current_chunk]) ++ [w] ++ ws = _
      rw [chunkWords_append]
      have hone : chunkWords [joinSpace st.current_chunk] = st.current_chunk := by
        simp only [chunkWords, List.map_cons, List.map_nil, List.flatten_cons,
          List.flatten_nil, List.append_nil]
        exact pySplit_joinSpace_run hc
      rw [hone]
      simp [List.append_assoc]
    · have hstep : splitStep mt st w =
          ⟨st.chunks, st.current_chunk ++ [w], st.current_length + (w.length + 1)⟩ := by
        simp [splitStep, hflush]
      rw [hstep]
      have hcc1 : ∀ x ∈ st.current_chunk ++ [w], wordOK x = true := by
        intro x hx
        rcases List.mem_append.mp hx with hx | hx
        · exact hc x hx
        · rw [List.mem_singleton.mp hx]
          exact hw
      obtain ⟨ih1, ih2⟩ :=
        ih ⟨st.chunks, st.current_chunk ++ [w], st.current_length + (w.length + 1)⟩ hrest hcc1
      refine ⟨?_, ih2⟩
      rw [ih1]
      simp [List.append_assoc]

end SplitTextInvariant

/-- Claim C10 (confirmed): for every input text and every positive
`max_tokens`, the chunks returned by `split_text` preserve the input's
words exactly: splitting the space-join of the returned chunks on
whitespace yields the same word sequence as splitting the text itself (no
word dropped, duplicated, or reordered). -/
theorem C10_split_text_preserves_words (text : List Char) (max_tokens : Nat)
    (_hpos : 0 < max_tokens) :
    pySplit (joinSpace (split_text text max_tokens)) = pySplit text := by
  have hwords : ∀ w ∈ pySplit text, wordOK w = true := pySplitAux_mem_ok text [] rfl
  obtain ⟨hinv, hccok⟩ := splitStep_fold_inv max_tokens (pySplit text) ⟨[], [], 0⟩ hwords
    (by intro w hw; cases hw)
  rw [pySplit_joinSpace]
  show chunkWords (split_text text max_tokens) = pySplit text
  rw [split_text]
  by_cases hcc :
      ((pySplit text).foldl (splitStep max_tokens) ⟨[], [], 0⟩).current_chunk.isEmpty
  · rw [if_pos hcc]
    have hnil :
        ((pySplit text).foldl (splitStep max_tokens) ⟨[], [], 0⟩).current_chunk = [] := by
      simpa [List.isEmpty_iff] using hcc
    rw [hnil] at hinv
    simpa [chunkWords] using hinv
  · rw [if_neg hcc]
    rw [chunkWords_append]
    have hrun :
        chunkWords [joinSpace
            ((pySplit text).foldl (splitStep max_tokens) ⟨[], [], 0⟩).current_chunk] =
          ((pySplit text).foldl (splitStep max_tokens) ⟨[], [], 0⟩).current_chunk := by
      simp only [chunkWords, List.map_cons, List.map_nil, List.flatten_cons,
        List.flatten_nil, List.append_nil]
      exact pySplit_joinSpace_run hccok
    rw [hrun]
    simpa [chunkWords] using hinv

/-- Witness for C10: the text "ab c" (as characters) chunked with
`max_tokens = 2` still carries exactly the words "ab" and "c". -/
theorem C10_witness :
    0 < 2 ∧ pySplit (joinSpace (split_text ['a', 'b', ' ', 'c'] 2)) =
      pySplit ['a', 'b', ' ', 'c'] :=
  ⟨by decide, C10_split_text_preserves_words ['a', 'b', ' ', 'c'] 2 (by decide)⟩
